import Mathlib

/-!
Shallow embedding of `src/xmltv_parser.py` (the XMLTV program parser of
gurleen/iptv-parser) and proofs about it.

Strings are modelled as `List Char`.  The character classes `\d` (regex),
`\s` (regex) and `str.strip()` are modelled over the ASCII alphabet:
digits are `'0'..'9'` and whitespace is the six common ASCII whitespace
characters.  `datetime.strptime` for the fixed formats
`%Y%m%d[%H[%M[%S]]] [%z]` together with the `datetime` constructor
validation (CPython 3.11 semantics) is modelled by `strptimeStamp` and
`parseOffset` below; Python's `None` is `Option.none`.
-/

namespace XMLTV

/-- A Python string, modelled as a list of characters. -/
abbrev Str := List Char

/-- ASCII whitespace, the characters stripped by `str.strip()` and matched
by the regex class `\s` (restricted to the ASCII alphabet). -/
def isSpace (c : Char) : Bool :=
  c == ' ' || c == '\t' || c == '\n' || c == '\r' || c == '\x0b' || c == '\x0c'

/-- ASCII decimal digit, the regex class `\d` (restricted to ASCII). -/
def isDigit (c : Char) : Bool :=
  48 ≤ c.toNat && c.toNat ≤ 57

/-- Remove trailing whitespace (the right half of `str.strip()`). -/
def rstrip (l : Str) : Str :=
  (l.reverse.dropWhile isSpace).reverse

/-- Python's `str.strip()`: remove leading and trailing whitespace. -/
def pyStrip (l : Str) : Str :=
  rstrip (l.dropWhile isSpace)

/-- Numeric value of a digit character (`int` applied to a digit). -/
def digitVal (c : Char) : Nat := c.toNat - 48

/-- `int` applied to a decimal digit string. -/
def digitsToNat (l : Str) : Nat :=
  l.foldl (fun a c => a * 10 + digitVal c) 0

/-- The result of a successful `datetime.strptime`: a Python `datetime`
value.  `utcoffset` is the fixed UTC offset in minutes carried by an
aware datetime; `none` models a naive datetime. -/
structure PyDatetime where
  year : Nat
  month : Nat
  day : Nat
  hour : Nat
  minute : Nat
  second : Nat
  utcoffset : Option Int
deriving DecidableEq, Repr

/-- Gregorian leap-year rule used by Python's `datetime`. -/
def isLeapYear (y : Nat) : Bool :=
  y % 4 == 0 && (y % 100 != 0 || y % 400 == 0)

/-- Number of days in a month, as validated by the `datetime` constructor. -/
def daysInMonth (y m : Nat) : Nat :=
  if m = 2 then (if isLeapYear y then 29 else 28)
  else if m = 4 ∨ m = 6 ∨ m = 9 ∨ m = 11 then 30
  else 31

/-- The field values denoted by a digit run of length 8, 10, 12 or 14:
`YYYYMMDD[HH[MM[SS]]]`, fields below the given precision at their
clock minimum (midnight), no timezone. -/
def stampFields (stamp : Str) : PyDatetime :=
  { year := digitsToNat (stamp.take 4)
    month := digitsToNat ((stamp.drop 4).take 2)
    day := digitsToNat ((stamp.drop 6).take 2)
    hour := if 10 ≤ stamp.length then digitsToNat ((stamp.drop 8).take 2) else 0
    minute := if 12 ≤ stamp.length then digitsToNat ((stamp.drop 10).take 2) else 0
    second := if 14 ≤ stamp.length then digitsToNat ((stamp.drop 12).take 2) else 0
    utcoffset := none }

/-- The date/time denoted by a `PyDatetime`'s fields exists: the combined
range checks of the `strptime` format regex and the `datetime`
constructor (year at least `MINYEAR = 1`, month 1..12, day 1..days of the
month, hour below 24, minute and second below 60). -/
def validDate (dt : PyDatetime) : Prop :=
  1 ≤ dt.year ∧ 1 ≤ dt.month ∧ dt.month ≤ 12 ∧
  1 ≤ dt.day ∧ dt.day ≤ daysInMonth dt.year dt.month ∧
  dt.hour ≤ 23 ∧ dt.minute ≤ 59 ∧ dt.second ≤ 59

instance (dt : PyDatetime) : Decidable (validDate dt) := by
  unfold validDate; infer_instance

/-- `datetime.strptime(stamp, fmt)` for the format chosen from the stamp's
length (`%Y%m%d`, `%Y%m%d%H`, `%Y%m%d%H%M` or `%Y%m%d%H%M%S`), applied to
a digit string whose length equals the format's width, including the
`datetime` constructor validation; a `ValueError` is `none`. -/
def strptimeStamp (stamp : Str) : Option PyDatetime :=
  let dt := stampFields stamp
  if validDate dt then some dt else none

/-- The `%z` directive applied to a `±HHMM` token: the strptime regex
accepts minutes `00..59`, and `datetime.timezone` requires the total
offset to be under 24 hours, which together mean `HH ≤ 23` and
`MM ≤ 59`; the result is a fixed UTC offset in minutes. -/
def parseOffset (sign : Char) (off : Str) : Option Int :=
  let hh := digitsToNat (off.take 2)
  let mm := digitsToNat (off.drop 2)
  if mm ≤ 59 ∧ hh ≤ 23 then
    some ((if sign = '+' then 1 else -1) * (hh * 60 + mm))
  else none

/-- Model of `_XMLTV_DATETIME_RE.match`: the anchored regex
`^(?P<stamp>\d{8}(?:\d{2}(?:\d{2}(?:\d{2})?)?)?)(?:\s+(?P<tz>[+-]\d{4}))?$`.
Because the element after the stamp group is whitespace or the end of
the string, the stamp group must consume the entire leading digit run,
so the regex matches exactly when that run has length 8, 10, 12 or 14
and the remainder is empty or whitespace followed by a sign and four
digits.  Returns the `stamp` group and the optional `tz` group (as sign
and digits). -/
def xmltvDatetimeMatch (s : Str) : Option (Str × Option (Char × Str)) :=
  let stamp := s.takeWhile isDigit
  let rest := s.dropWhile isDigit
  if stamp.length = 8 ∨ stamp.length = 10 ∨ stamp.length = 12 ∨ stamp.length = 14 then
    match rest with
    | [] => some (stamp, none)
    | c :: _ =>
      if isSpace c then
        match rest.dropWhile isSpace with
        | sign :: off =>
          if (sign = '+' ∨ sign = '-') ∧ off.length = 4 ∧ off.all isDigit then
            some (stamp, some (sign, off))
          else none
        | [] => none
      else none
  else none

/-- `XMLTVParser.parse_xmltv_datetime`: strip the value, match it against
`_XMLTV_DATETIME_RE`, pick the format from the stamp length and run
`datetime.strptime`, with every failure degrading to `none`. -/
def parse_xmltv_datetime (value : Option Str) : Option PyDatetime :=
  match value with
  | none => none
  | some v =>
    if v = [] then none
    else
      match xmltvDatetimeMatch (pyStrip v) with
      | none => none
      | some (stamp, tz) =>
        match strptimeStamp stamp with
        | none => none
        | some dt =>
          match tz with
          | none => some dt
          | some (sign, off) =>
            match parseOffset sign off with
            | none => none
            | some o => some { dt with utcoffset := some o }

/-- The expected root tag literal. -/
def tvTag : Str := ("tv".toList)

/-- The program element tag literal. -/
def programmeTag : Str := ("programme".toList)

/-- An `xml.etree.ElementTree.Element`: tag, attribute dictionary
(modelled as an association list with first-key lookup), text before the
first child, and the list of direct children. -/
inductive Element where
  | mk (tag : Str) (attrib : List (Str × Str)) (text : Option Str) (children : List Element)

def Element.tag : Element → Str
  | .mk t _ _ _ => t

def Element.attrib : Element → List (Str × Str)
  | .mk _ a _ _ => a

def Element.text : Element → Option Str
  | .mk _ _ x _ => x

def Element.children : Element → List Element
  | .mk _ _ _ cs => cs

/-- `element.get(key)`: attribute lookup. -/
def Element.get (e : Element) (key : Str) : Option Str :=
  (e.attrib.find? (fun p => p.1 = key)).map (·.2)

/-- `element.find(tag)` with a plain tag path: the first direct child
with the given tag, or `None`. -/
def Element.find (e : Element) (tag : Str) : Option Element :=
  e.children.find? (fun c => c.tag = tag)

/-- `XMLTVParser._text_or_none`: the trimmed text of an element, with a
missing element, missing text, or text that is empty after trimming all
returned as `None`. -/
def _text_or_none (element : Option Element) : Option Str :=
  match element with
  | none => none
  | some el =>
    match el.text with
    | none => none
    | some t =>
      let text := pyStrip t
      if text = [] then none else some text

/-- The `XMLTVProgram` dataclass. -/
structure XMLTVProgram where
  channel : Option Str
  start : Option Str
  start_dt : Option PyDatetime
  stop : Option Str
  stop_dt : Option PyDatetime
  title : Option Str
  sub_title : Option Str
  description : Option Str
  date : Option Str
  category : Option Str
  keyword : Option Str
  language : Option Str
  orig_language : Option Str
  length : Option Str
  country : Option Str
  episode_num : Option Str
  is_new : Bool
  premiere : Option Str
  last_chance : Option Str
deriving Repr

/-- `XMLTVParser._parse_programme`: build one record from a `programme`
element. -/
def _parse_programme (element : Element) : XMLTVProgram :=
  let start_raw := element.get ("start".toList)
  let stop_raw := element.get ("stop".toList)
  { channel := element.get ("channel".toList)
    start := start_raw
    start_dt := parse_xmltv_datetime start_raw
    stop := stop_raw
    stop_dt := parse_xmltv_datetime stop_raw
    title := _text_or_none (element.find ("title".toList))
    sub_title := _text_or_none (element.find ("sub-title".toList))
    description := _text_or_none (element.find ("desc".toList))
    date := _text_or_none (element.find ("date".toList))
    category := _text_or_none (element.find ("category".toList))
    keyword := _text_or_none (element.find ("keyword".toList))
    language := _text_or_none (element.find ("language".toList))
    orig_language := _text_or_none (element.find ("orig-language".toList))
    length := _text_or_none (element.find ("length".toList))
    country := _text_or_none (element.find ("country".toList))
    episode_num := _text_or_none (element.find ("episode-num".toList))
    is_new := (element.find ("new".toList)).isSome
    premiere := _text_or_none (element.find ("premiere".toList))
    last_chance := _text_or_none (element.find ("last-chance".toList)) }

/-- One event of `ET.iterparse(..., events=("start", "end"))`.  `close`
models the `"end"` event (`end` is a Lean keyword). -/
inductive XmlEvent where
  | start (e : Element)
  | close (e : Element)

mutual

/-- The event stream `ET.iterparse` produces for a well-formed document:
a `start` event when an element opens, the events of its children, then
an `end` event when it closes. -/
def Element.events : Element → List XmlEvent
  | .mk t a x cs => .start (.mk t a x cs) :: (eventsList cs ++ [.close (.mk t a x cs)])

def eventsList : List Element → List XmlEvent
  | [] => []
  | c :: cs => c.events ++ eventsList cs

end

mutual

/-- All elements of a tree whose tag is `programme`, in the order their
closing boundaries appear in the document (postorder). -/
def Element.programmesPost : Element → List Element
  | .mk t a x cs =>
    programmesPostList cs ++ (if t = programmeTag then [Element.mk t a x cs] else [])

def programmesPostList : List Element → List Element
  | [] => []
  | c :: cs => c.programmesPost ++ programmesPostList cs

end

/-- Outcome of running `XMLTVParser.iter_parse` to exhaustion: either the
full list of yielded records, or the records yielded before a
`ValueError` was raised, together with its message. -/
inductive WalkResult where
  | ok (records : List XMLTVProgram)
  | error (yielded : List XMLTVProgram) (msg : Str)

/-- The message of the `ValueError` raised on a bad root tag. -/
def rootErrorMsg : Str := ("Expected root element <tv> in XMLTV file.".toList)

/-- The event loop of `XMLTVParser.iter_parse`: `rootSeen` models
`root is not None`; on the first `start` event the tag must be `tv`,
otherwise a `ValueError` is raised; every `end` event of a `programme`
element yields `_parse_programme` of that element.  (`element.clear()` /
`root.clear()` only reclaim memory of already-consumed subtrees and do
not affect the event stream, so they have no counterpart here.) -/
def iter_parse_events : List XmlEvent → Bool → List XMLTVProgram → WalkResult
  | [], _, acc => .ok acc.reverse
  | .start el :: rest, rootSeen, acc =>
    if rootSeen then iter_parse_events rest true acc
    else if el.tag = tvTag then iter_parse_events rest true acc
    else .error acc.reverse rootErrorMsg
  | .close el :: rest, rootSeen, acc =>
    if el.tag = programmeTag then
      iter_parse_events rest rootSeen (_parse_programme el :: acc)
    else iter_parse_events rest rootSeen acc

/-- `XMLTVParser.iter_parse` on a well-formed document with root element
`root`, run to exhaustion. -/
def iter_parse (root : Element) : WalkResult :=
  iter_parse_events root.events false []

/-- Zero-padded decimal rendering of a number to a fixed width, as
`strftime` renders `%Y` (width 4) and `%m%d%H%M%S` (width 2). -/
def natToDigits : Nat → Nat → Str
  | 0, _ => []
  | w + 1, n => natToDigits w (n / 10) ++ [Char.ofNat (n % 10 + 48)]

/-- Re-format a parsed timestamp back to a digit token of the given
length: `strftime` with the same format that parsed it. -/
def formatStamp (dt : PyDatetime) (len : Nat) : Str :=
  natToDigits 4 dt.year ++ natToDigits 2 dt.month ++ natToDigits 2 dt.day ++
  (if 10 ≤ len then natToDigits 2 dt.hour else []) ++
  (if 12 ≤ len then natToDigits 2 dt.minute else []) ++
  (if 14 ≤ len then natToDigits 2 dt.second else [])

/-- The named optional text fields of `XMLTVProgram` that are read from a
child element's text. -/
inductive TextField where
  | title | sub_title | description | date | category | keyword | language
  | orig_language | length | country | episode_num | premiere | last_chance
deriving DecidableEq, Repr

/-- The child-element tag each text field is read from. -/
def TextField.tag : TextField → Str
  | .title => ("title".toList)
  | .sub_title => ("sub-title".toList)
  | .description => ("desc".toList)
  | .date => ("date".toList)
  | .category => ("category".toList)
  | .keyword => ("keyword".toList)
  | .language => ("language".toList)
  | .orig_language => ("orig-language".toList)
  | .length => ("length".toList)
  | .country => ("country".toList)
  | .episode_num => ("episode-num".toList)
  | .premiere => ("premiere".toList)
  | .last_chance => ("last-chance".toList)

/-- Project a record onto one of its named optional text fields. -/
def XMLTVProgram.textField (p : XMLTVProgram) : TextField → Option Str
  | .title => p.title
  | .sub_title => p.sub_title
  | .description => p.description
  | .date => p.date
  | .category => p.category
  | .keyword => p.keyword
  | .language => p.language
  | .orig_language => p.orig_language
  | .length => p.length
  | .country => p.country
  | .episode_num => p.episode_num
  | .premiere => p.premiere
  | .last_chance => p.last_chance

/-- The element closed by an `end` event of a `programme` element, if
this event is one. -/
def closesProgramme : XmlEvent → Option Element
  | .close el => if el.tag = programmeTag then some el else none
  | .start _ => none

/-- A small sample document (root `tv` with two `programme` children)
used to instantiate the walker theorems. -/
def sampleDoc : Element :=
  Element.mk tvTag [] none
    [Element.mk programmeTag [(("start".toList), ("20240115".toList))] none
       [Element.mk ("title".toList) [] (some ("News".toList)) []],
     Element.mk programmeTag [] none []]

/-- A document whose root tag is not `tv`. -/
def badRootDoc : Element :=
  Element.mk ("html".toList) [] none []

/-- A sample `programme` element with a repeated child, empty-after-trim
text, an unparseable `start` attribute, and a `new` marker. -/
def sampleProgramme : Element :=
  Element.mk programmeTag [(("start".toList), ("oops".toList))] none
    [Element.mk ("category".toList) [] (some ("   ".toList)) [],
     Element.mk ("category".toList) [] (some ("Drama".toList)) [],
     Element.mk ("new".toList) [] none []]

/-! ### Helper lemmas: characters, `takeWhile`/`dropWhile`, `strip` -/

theorem space_not_digit {c : Char} (h : isSpace c = true) : isDigit c = false := by
  simp only [isSpace, Bool.or_eq_true, beq_iff_eq] at h
  rcases h with ((((rfl | rfl) | rfl) | rfl) | rfl) | rfl <;> decide

theorem digit_not_space {c : Char} (h : isDigit c = true) : isSpace c = false := by
  cases hs : isSpace c with
  | false => rfl
  | true => rw [space_not_digit hs] at h; cases h

theorem takeWhile_all_eq {p : Char → Bool} :
    ∀ {l : Str}, l.all p = true → l.takeWhile p = l
  | [], _ => rfl
  | c :: t, h => by
    simp only [List.all_cons, Bool.and_eq_true] at h
    simp [List.takeWhile_cons, h.1, takeWhile_all_eq h.2]

theorem dropWhile_all_eq {p : Char → Bool} :
    ∀ {l : Str}, l.all p = true → l.dropWhile p = []
  | [], _ => rfl
  | c :: t, h => by
    simp only [List.all_cons, Bool.and_eq_true] at h
    simp [List.dropWhile_cons, h.1, dropWhile_all_eq h.2]

theorem takeWhile_append_all {p : Char → Bool} :
    ∀ {a : Str} (t : Str), a.all p = true → (a ++ t).takeWhile p = a ++ t.takeWhile p
  | [], t, _ => rfl
  | c :: a, t, h => by
    simp only [List.all_cons, Bool.and_eq_true] at h
    simp [List.takeWhile_cons, h.1, takeWhile_append_all t h.2]

theorem dropWhile_append_all {p : Char → Bool} :
    ∀ {a : Str} (t : Str), a.all p = true → (a ++ t).dropWhile p = t.dropWhile p
  | [], t, _ => rfl
  | c :: a, t, h => by
    simp only [List.all_cons, Bool.and_eq_true] at h
    simp [List.dropWhile_cons, h.1, dropWhile_append_all t h.2]

theorem dropWhile_cons_neg {p : Char → Bool} {c : Char} (t : Str) (h : p c = false) :
    (c :: t).dropWhile p = c :: t := by
  simp [List.dropWhile_cons, h]

theorem dropWhile_head_false {p : Char → Bool} :
    ∀ {l : Str} {c : Char} {r : Str}, l.dropWhile p = c :: r → p c = false
  | [], _, _, h => by cases h
  | x :: t, c, r, h => by
    by_cases hx : p x
    · rw [List.dropWhile_cons, if_pos hx] at h
      exact dropWhile_head_false h
    · rw [List.dropWhile_cons, if_neg hx] at h
      cases h
      exact Bool.eq_false_iff.mpr hx

theorem rstrip_append_all {x b : Str} (h : b.all isSpace = true) :
    rstrip (x ++ b) = rstrip x := by
  unfold rstrip
  rw [List.reverse_append, dropWhile_append_all _ (by simpa using h)]

theorem pyStrip_append_left {a t : Str} (h : a.all isSpace = true) :
    pyStrip (a ++ t) = pyStrip t := by
  unfold pyStrip
  rw [dropWhile_append_all _ h]

theorem pyStrip_append_right {t b : Str} (h : b.all isSpace = true) :
    pyStrip (t ++ b) = pyStrip t := by
  unfold pyStrip
  have hsplit : t = t.takeWhile isSpace ++ t.dropWhile isSpace :=
    (List.takeWhile_append_dropWhile ..).symm
  rw [hsplit, List.append_assoc,
    dropWhile_append_all _ (List.all_takeWhile ..),
    dropWhile_append_all _ (List.all_takeWhile ..)]
  cases hd : t.dropWhile isSpace with
  | nil => rw [List.nil_append, dropWhile_all_eq h, dropWhile_all_eq (l := []) rfl]
  | cons c r =>
    have hc : isSpace c = false := dropWhile_head_false hd
    rw [List.cons_append, dropWhile_cons_neg _ hc, dropWhile_cons_neg _ hc,
      ← List.cons_append, rstrip_append_all h]

theorem pyStrip_all_space {l : Str} (h : l.all isSpace = true) : pyStrip l = [] := by
  unfold pyStrip
  rw [dropWhile_all_eq h]
  rfl

theorem pyStrip_no_space {l : Str} (h : ∀ c ∈ l, isSpace c = false) : pyStrip l = l := by
  have hall : l.all (fun c => !isSpace c) = true := by
    simp only [List.all_eq_true, Bool.not_eq_true']
    exact h
  unfold pyStrip rstrip
  have h1 : l.dropWhile isSpace = l := by
    cases l with
    | nil => rfl
    | cons c t => exact dropWhile_cons_neg _ (h c (List.mem_cons_self ..))
  rw [h1]
  have h2 : l.reverse.dropWhile isSpace = l.reverse := by
    cases hr : l.reverse with
    | nil => rfl
    | cons c t =>
      refine dropWhile_cons_neg _ (h c ?_)
      rw [← List.mem_reverse, hr]
      exact List.mem_cons_self ..
  rw [h2, List.reverse_reverse]

/-! ### Helper lemmas: digit strings and zero-padded rendering -/

theorem digitsToNat_concat (l : Str) (c : Char) :
    digitsToNat (l ++ [c]) = digitsToNat l * 10 + digitVal c := by
  unfold digitsToNat
  rw [List.foldl_append]
  rfl

theorem digitVal_lt_ten {c : Char} (h : isDigit c = true) : digitVal c < 10 := by
  simp only [isDigit, Bool.and_eq_true, decide_eq_true_eq] at h
  unfold digitVal
  omega

theorem ofNat_digitVal {c : Char} (h : isDigit c = true) :
    Char.ofNat (digitVal c + 48) = c := by
  simp only [isDigit, Bool.and_eq_true, decide_eq_true_eq] at h
  unfold digitVal
  rw [Nat.sub_add_cancel h.1]
  exact Char.ofNat_toNat c

theorem natToDigits_digitsToNat {l : Str} (h : l.all isDigit = true) :
    natToDigits l.length (digitsToNat l) = l := by
  induction l using List.reverseRecOn with
  | nil => rfl
  | append_singleton t c ih =>
    simp only [List.all_append, List.all_cons, List.all_nil, Bool.and_eq_true] at h
    have hc : digitVal c < 10 := digitVal_lt_ten h.2.1
    have hdiv : (digitsToNat t * 10 + digitVal c) / 10 = digitsToNat t := by omega
    have hmod : (digitsToNat t * 10 + digitVal c) % 10 = digitVal c := by omega
    rw [List.length_append, List.length_singleton, digitsToNat_concat, natToDigits,
      hdiv, hmod, ofNat_digitVal h.2.1, ih h.1]

/-! ### Characterizations of the regex match -/

theorem match_all_digits {s : Str} (h : s.all isDigit = true)
    (hlen : s.length = 8 ∨ s.length = 10 ∨ s.length = 12 ∨ s.length = 14) :
    xmltvDatetimeMatch s = some (s, none) := by
  simp only [xmltvDatetimeMatch]
  rw [takeWhile_all_eq h, dropWhile_all_eq h, if_pos hlen]

theorem match_tz {stamp ws off : Str} {sign : Char}
    (hst : stamp.all isDigit = true)
    (hlen : stamp.length = 8 ∨ stamp.length = 10 ∨ stamp.length = 12 ∨ stamp.length = 14)
    (hws : ws ≠ []) (hwsall : ws.all isSpace = true)
    (hsign : sign = '+' ∨ sign = '-')
    (hofflen : off.length = 4) (hoffdig : off.all isDigit = true) :
    xmltvDatetimeMatch (stamp ++ (ws ++ sign :: off)) = some (stamp, some (sign, off)) := by
  obtain ⟨w, ws', rfl⟩ : ∃ w ws', ws = w :: ws' := by
    cases ws with
    | nil => exact absurd rfl hws
    | cons w ws' => exact ⟨w, ws', rfl⟩
  have hw : isSpace w = true := by
    simp only [List.all_cons, Bool.and_eq_true] at hwsall
    exact hwsall.1
  have hwd : isDigit w = false := Bool.eq_false_iff.mpr fun hd => by
    rw [digit_not_space hd] at hw; cases hw
  have hsignsp : isSpace sign = false := by
    rcases hsign with rfl | rfl <;> decide
  have hsigndig : isDigit sign = false := by
    rcases hsign with rfl | rfl <;> decide
  have hdrop : List.dropWhile isSpace (w :: (ws' ++ sign :: off)) = sign :: off := by
    rw [← List.cons_append, dropWhile_append_all _ hwsall, dropWhile_cons_neg _ hsignsp]
  simp only [xmltvDatetimeMatch]
  rw [takeWhile_append_all _ hst, dropWhile_append_all _ hst]
  simp only [List.cons_append]
  rw [List.takeWhile_cons_of_neg (by simp [hwd]), List.append_nil,
    dropWhile_cons_neg _ hwd, if_pos hlen, hdrop]
  simp [hw, hsign, hofflen, hoffdig]

/-! ### First-match lookup -/

theorem find?_first {α : Type} (p : α → Bool) :
    ∀ (pre : List α) (c : α) (post : List α),
      (∀ a ∈ pre, p a = false) → p c = true →
      (pre ++ c :: post).find? p = some c
  | [], c, post, _, hc => by
    rw [List.nil_append]
    exact List.find?_cons_of_pos _ hc
  | a :: pre, c, post, hpre, hc => by
    rw [List.cons_append,
      List.find?_cons_of_neg _ (by simp [hpre a (List.mem_cons_self ..)]),
      find?_first p pre c post (fun x hx => hpre x (List.mem_cons_of_mem _ hx)) hc]

/-! ### Walker lemmas -/

theorem iter_parse_events_rootSeen (evs : List XmlEvent) :
    ∀ acc, iter_parse_events evs true acc =
      .ok (acc.reverse ++ (evs.filterMap closesProgramme).map _parse_programme) := by
  induction evs with
  | nil =>
    intro acc
    simp [iter_parse_events]
  | cons ev rest ih =>
    intro acc
    cases ev with
    | start el => simp [iter_parse_events, ih, closesProgramme]
    | close el =>
      by_cases h : el.tag = programmeTag
      · simp [iter_parse_events, h, ih, closesProgramme]
      · simp [iter_parse_events, h, ih, closesProgramme]

mutual

theorem closes_events : ∀ (e : Element),
    (Element.events e).filterMap closesProgramme = Element.programmesPost e
  | .mk t a x cs => by
    rw [Element.events, Element.programmesPost, List.filterMap_cons]
    simp only [closesProgramme, List.filterMap_append, closes_eventsList cs,
      List.filterMap_cons, List.filterMap_nil, Element.tag]
    by_cases h : t = programmeTag
    · simp [h]
    · simp [h]

theorem closes_eventsList : ∀ (cs : List Element),
    (eventsList cs).filterMap closesProgramme = programmesPostList cs
  | [] => by rw [eventsList, programmesPostList, List.filterMap_nil]
  | c :: cs => by
    rw [eventsList, programmesPostList, List.filterMap_append,
      closes_events c, closes_eventsList cs]

end

theorem strptimeStamp_some {stamp : Str} {dt : PyDatetime}
    (h : strptimeStamp stamp = some dt) :
    dt = stampFields stamp ∧ validDate dt := by
  simp only [strptimeStamp] at h
  by_cases hv : validDate (stampFields stamp)
  · rw [if_pos hv] at h
    injection h with h
    exact ⟨h.symm, h ▸ hv⟩
  · rw [if_neg hv] at h
    cases h

/-- C1 (amended): for every input token whose digit run (after stripping
surrounding whitespace) has length 8, 10, 12 or 14, carries no timezone
offset, and denotes an existing calendar date/time, `parse_xmltv_datetime`
returns the naive timestamp whose year/month/day/hour/minute/second
fields exactly match the given digits, with every field below the given
precision at its clock minimum (see `stampFields`); for every token
whose digit run has any other length, it returns absent. -/
theorem parse_naive_valid :
    (∀ (v stamp : Str), pyStrip v = stamp → stamp.all isDigit = true →
      (stamp.length = 8 ∨ stamp.length = 10 ∨ stamp.length = 12 ∨ stamp.length = 14) →
      validDate (stampFields stamp) →
      parse_xmltv_datetime (some v) = some (stampFields stamp)) ∧
    (∀ v : Str,
      ¬(((pyStrip v).takeWhile isDigit).length = 8 ∨
        ((pyStrip v).takeWhile isDigit).length = 10 ∨
        ((pyStrip v).takeWhile isDigit).length = 12 ∨
        ((pyStrip v).takeWhile isDigit).length = 14) →
      parse_xmltv_datetime (some v) = none) := by
  constructor
  · intro v stamp hstrip hdig hlen hvalid
    have hne : v ≠ [] := by
      intro h
      subst h
      have h0 : stamp = [] := hstrip.symm
      subst h0
      simp at hlen
    simp only [parse_xmltv_datetime, if_neg hne, hstrip, match_all_digits hdig hlen]
    simp only [strptimeStamp, if_pos hvalid]
  · intro v h
    by_cases hv : v = []
    · rw [hv]
      rfl
    · have hmn : xmltvDatetimeMatch (pyStrip v) = none := by
        simp only [xmltvDatetimeMatch]
        exact if_neg h
      simp only [parse_xmltv_datetime, if_neg hv, hmn]

/-- C1 counterexample: the token `20240231` has a digit run of length 8
and no timezone offset, yet the normalizer returns absent (February has
no 31st day), so the claim as stated fails. -/
theorem c1_counterexample :
    ((pyStrip ("20240231".toList)).takeWhile isDigit).length = 8 ∧
    (pyStrip ("20240231".toList)).dropWhile isDigit = [] ∧
    parse_xmltv_datetime (some ("20240231".toList)) = none := by decide

/-- C1 witness: the amended theorem applied to the concrete valid token
`2024011513`. -/
theorem c1_witness :
    parse_xmltv_datetime (some ("2024011513".toList)) =
      some (stampFields ("2024011513".toList)) ∧
    parse_xmltv_datetime (some ("202401".toList)) = none :=
  ⟨parse_naive_valid.1 ("2024011513".toList) ("2024011513".toList)
    (by decide) (by decide) (by decide) (by decide),
   parse_naive_valid.2 ("202401".toList) (by decide)⟩

/-- C2 (amended): for every token consisting of a valid digit run (8, 10,
12 or 14 digits denoting an existing date/time) followed by whitespace
and a signed 4-digit UTC offset whose hour part is at most 23 and whose
minute part is at most 59, the normalizer returns a timestamp anchored
to exactly that fixed UTC offset, with the date/time fields taken from
the digit run as in the no-offset case. -/
theorem parse_offset_valid (v stamp ws off : Str) (sign : Char)
    (hstrip : pyStrip v = stamp ++ (ws ++ sign :: off))
    (hdig : stamp.all isDigit = true)
    (hlen : stamp.length = 8 ∨ stamp.length = 10 ∨ stamp.length = 12 ∨ stamp.length = 14)
    (hws : ws ≠ []) (hwsall : ws.all isSpace = true)
    (hsign : sign = '+' ∨ sign = '-')
    (hofflen : off.length = 4) (hoffdig : off.all isDigit = true)
    (hvalid : validDate (stampFields stamp))
    (hmm : digitsToNat (off.drop 2) ≤ 59) (hhh : digitsToNat (off.take 2) ≤ 23) :
    parse_xmltv_datetime (some v) =
      some { stampFields stamp with utcoffset := some ((if sign = '+' then 1 else -1) * (digitsToNat (off.take 2) * 60 + digitsToNat (off.drop 2))) } := by
  have hne : v ≠ [] := by
    intro h
    subst h
    have h0 : ([] : Str) = stamp ++ (ws ++ sign :: off) := hstrip
    rcases List.append_eq_nil.mp h0.symm with ⟨h1, _⟩
    subst h1
    simp at hlen
  simp only [parse_xmltv_datetime, if_neg hne, hstrip,
    match_tz hdig hlen hws hwsall hsign hofflen hoffdig]
  simp only [strptimeStamp, if_pos hvalid, parseOffset]
  rw [if_pos ⟨hmm, hhh⟩]

/-- C2 counterexample: `20240115 +2500` is a valid digit run followed by
whitespace and a signed 4-digit offset, yet the normalizer returns
absent (the offset is not under 24 hours), so the claim as stated
fails; the digit run itself normalizes fine. -/
theorem c2_counterexample :
    parse_xmltv_datetime (some ("20240115 +2500".toList)) = none ∧
    parse_xmltv_datetime (some ("20240115".toList)) =
      some ⟨2024, 1, 15, 0, 0, 0, none⟩ := by decide

/-- C2 witness: the amended theorem applied to the concrete token
`202401151330 -0500`. -/
theorem c2_witness :
    parse_xmltv_datetime (some ("202401151330 -0500".toList)) =
      some { stampFields ("202401151330".toList) with utcoffset := some ((if '-' = '+' then 1 else -1) * (digitsToNat (("0500".toList).take 2) * 60 + digitsToNat (("0500".toList).drop 2))) } :=
  parse_offset_valid ("202401151330 -0500".toList) ("202401151330".toList)
    ([' ']) ("0500".toList) '-' (by decide) (by decide) (by decide)
    (by decide) (by decide) (Or.inr rfl) (by decide) (by decide) (by decide)
    (by decide) (by decide)

/-- C3: the normalizer is total and never raises — absent input, the
empty string, a token whose digit run has the wrong length, and a token
that parses digit-wise but denotes a nonexistent date/time all yield
absent; every timestamp it does return denotes an existing date/time.
(Determinism and freedom from side effects are inherent: the model is a
pure function.) -/
theorem parse_total :
    parse_xmltv_datetime none = none ∧
    parse_xmltv_datetime (some []) = none ∧
    (∀ v : Str,
      ¬(((pyStrip v).takeWhile isDigit).length = 8 ∨
        ((pyStrip v).takeWhile isDigit).length = 10 ∨
        ((pyStrip v).takeWhile isDigit).length = 12 ∨
        ((pyStrip v).takeWhile isDigit).length = 14) →
      parse_xmltv_datetime (some v) = none) ∧
    (∀ (v : Str) (dt : PyDatetime),
      parse_xmltv_datetime (some v) = some dt → validDate dt) := by
  refine ⟨rfl, rfl, ?_, ?_⟩
  · intro v h
    by_cases hv : v = []
    · rw [hv]; rfl
    · have hmn : xmltvDatetimeMatch (pyStrip v) = none := by
        simp only [xmltvDatetimeMatch]
        exact if_neg h
      simp only [parse_xmltv_datetime, if_neg hv, hmn]
  · intro v dt h
    by_cases hv : v = []
    · rw [hv] at h; cases h
    · simp only [parse_xmltv_datetime, if_neg hv] at h
      rcases hm : xmltvDatetimeMatch (pyStrip v) with _ | ⟨stamp, tz⟩
      · simp [hm] at h
      · simp only [hm] at h
        cases tz with
        | none =>
          rcases hs : strptimeStamp stamp with _ | dt0
          · simp [hs] at h
          · simp only [hs] at h
            obtain ⟨hdt0, hval⟩ := strptimeStamp_some hs
            injection h with h
            exact h ▸ hval
        | some st =>
          obtain ⟨sign, off⟩ := st
          rcases hs : strptimeStamp stamp with _ | dt0
          · simp [hs] at h
          · rcases ho : parseOffset sign off with _ | o
            · simp [hs, ho] at h
            · simp only [hs, ho] at h
              obtain ⟨hdt0, hval⟩ := strptimeStamp_some hs
              injection h with h
              rw [← h]
              simpa [validDate] using hval

/-- C3 witness: the wrong-length branch applied to the concrete token
`123`, and the existence guarantee applied to `20240115`. -/
theorem c3_witness :
    parse_xmltv_datetime (some ("123".toList)) = none ∧
    validDate ⟨2024, 1, 15, 0, 0, 0, none⟩ :=
  ⟨parse_total.2.2.1 ("123".toList) (by decide),
   parse_total.2.2.2 ("20240115".toList) ⟨2024, 1, 15, 0, 0, 0, none⟩ (by decide)⟩

theorem natToDigits_take (s : Str) (hdig : s.all isDigit = true) (w : Nat)
    (h : w ≤ s.length) :
    natToDigits w (digitsToNat (s.take w)) = s.take w := by
  have hsub : (s.take w).all isDigit = true := by
    rw [List.all_eq_true] at hdig ⊢
    exact fun c hc => hdig c (List.take_subset _ _ hc)
  have hl : (s.take w).length = w := by
    rw [List.length_take]
    omega
  calc natToDigits w (digitsToNat (s.take w))
      = natToDigits ((s.take w).length) (digitsToNat (s.take w)) := by rw [hl]
    _ = s.take w := natToDigits_digitsToNat hsub

theorem natToDigits_take_drop (s : Str) (hdig : s.all isDigit = true) (i w : Nat)
    (h : i + w ≤ s.length) :
    natToDigits w (digitsToNat ((s.drop i).take w)) = (s.drop i).take w := by
  have hsub : ((s.drop i).take w).all isDigit = true := by
    rw [List.all_eq_true] at hdig ⊢
    exact fun c hc => hdig c (List.drop_subset _ _ (List.take_subset _ _ hc))
  have hl : ((s.drop i).take w).length = w := by
    rw [List.length_take, List.length_drop]
    omega
  calc natToDigits w (digitsToNat ((s.drop i).take w))
      = natToDigits (((s.drop i).take w).length) (digitsToNat ((s.drop i).take w)) := by
        rw [hl]
    _ = (s.drop i).take w := natToDigits_digitsToNat hsub

theorem take_drop_cover (s : Str) (i w : Nat) :
    (s.drop i).take w ++ s.drop (i + w) = s.drop i := by
  conv_rhs => rw [← List.take_append_drop w (s.drop i)]
  rw [List.drop_drop, Nat.add_comm]

theorem formatStamp_stampFields (s : Str) (hdig : s.all isDigit = true)
    (hlen : s.length = 8 ∨ s.length = 10 ∨ s.length = 12 ∨ s.length = 14) :
    formatStamp (stampFields s) s.length = s := by
  rcases hlen with h | h | h | h
  · have c2 : (s.drop 6).take 2 ++ s.drop 8 = s.drop 6 := by
      simpa using take_drop_cover s 6 2
    have c1 : (s.drop 4).take 2 ++ s.drop 6 = s.drop 4 := by
      simpa using take_drop_cover s 4 2
    have dnil : s.drop 8 = [] := List.drop_eq_nil_of_le (by omega)
    rw [dnil, List.append_nil] at c2
    rw [← c2] at c1
    simp only [formatStamp, stampFields, h]
    norm_num
    rw [natToDigits_take s hdig 4 (by omega), natToDigits_take_drop s hdig 4 2 (by omega),
      natToDigits_take_drop s hdig 6 2 (by omega), c1, List.take_append_drop]
  · have c3 : (s.drop 8).take 2 ++ s.drop 10 = s.drop 8 := by
      simpa using take_drop_cover s 8 2
    have c2 : (s.drop 6).take 2 ++ s.drop 8 = s.drop 6 := by
      simpa using take_drop_cover s 6 2
    have c1 : (s.drop 4).take 2 ++ s.drop 6 = s.drop 4 := by
      simpa using take_drop_cover s 4 2
    have dnil : s.drop 10 = [] := List.drop_eq_nil_of_le (by omega)
    rw [dnil, List.append_nil] at c3
    rw [← c3] at c2
    rw [← c2] at c1
    simp only [formatStamp, stampFields, h]
    norm_num
    rw [natToDigits_take s hdig 4 (by omega), natToDigits_take_drop s hdig 4 2 (by omega),
      natToDigits_take_drop s hdig 6 2 (by omega), natToDigits_take_drop s hdig 8 2 (by omega),
      c1, List.take_append_drop]
  · have c4 : (s.drop 10).take 2 ++ s.drop 12 = s.drop 10 := by
      simpa using take_drop_cover s 10 2
    have c3 : (s.drop 8).take 2 ++ s.drop 10 = s.drop 8 := by
      simpa using take_drop_cover s 8 2
    have c2 : (s.drop 6).take 2 ++ s.drop 8 = s.drop 6 := by
      simpa using take_drop_cover s 6 2
    have c1 : (s.drop 4).take 2 ++ s.drop 6 = s.drop 4 := by
      simpa using take_drop_cover s 4 2
    have dnil : s.drop 12 = [] := List.drop_eq_nil_of_le (by omega)
    rw [dnil, List.append_nil] at c4
    rw [← c4] at c3
    rw [← c3] at c2
    rw [← c2] at c1
    simp only [formatStamp, stampFields, h]
    norm_num
    rw [natToDigits_take s hdig 4 (by omega), natToDigits_take_drop s hdig 4 2 (by omega),
      natToDigits_take_drop s hdig 6 2 (by omega), natToDigits_take_drop s hdig 8 2 (by omega),
      natToDigits_take_drop s hdig 10 2 (by omega), c1, List.take_append_drop]
  · have c5 : (s.drop 12).take 2 ++ s.drop 14 = s.drop 12 := by
      simpa using take_drop_cover s 12 2
    have c4 : (s.drop 10).take 2 ++ s.drop 12 = s.drop 10 := by
      simpa using take_drop_cover s 10 2
    have c3 : (s.drop 8).take 2 ++ s.drop 10 = s.drop 8 := by
      simpa using take_drop_cover s 8 2
    have c2 : (s.drop 6).take 2 ++ s.drop 8 = s.drop 6 := by
      simpa using take_drop_cover s 6 2
    have c1 : (s.drop 4).take 2 ++ s.drop 6 = s.drop 4 := by
      simpa using take_drop_cover s 4 2
    have dnil : s.drop 14 = [] := List.drop_eq_nil_of_le (by omega)
    rw [dnil, List.append_nil] at c5
    rw [← c5] at c4
    rw [← c4] at c3
    rw [← c3] at c2
    rw [← c2] at c1
    simp only [formatStamp, stampFields, h]
    norm_num
    rw [natToDigits_take s hdig 4 (by omega), natToDigits_take_drop s hdig 4 2 (by omega),
      natToDigits_take_drop s hdig 6 2 (by omega), natToDigits_take_drop s hdig 8 2 (by omega),
      natToDigits_take_drop s hdig 10 2 (by omega),
      natToDigits_take_drop s hdig 12 2 (by omega), c1, List.take_append_drop]

/-- C9: round-trip — for every digit token with no timezone offset that
the normalizer successfully parses, re-formatting the resulting
timestamp back to a digit token of the same length reproduces the
original token exactly. -/
theorem roundtrip_format (s : Str) (dt : PyDatetime)
    (hdig : s.all isDigit = true)
    (h : parse_xmltv_datetime (some s) = some dt) :
    formatStamp dt s.length = s := by
  have hns : ∀ c ∈ s, isSpace c = false := fun c hc =>
    digit_not_space (List.all_eq_true.mp hdig c hc)
  have hstrip : pyStrip s = s := pyStrip_no_space hns
  have hne : s ≠ [] := by
    intro h0
    rw [h0] at h
    simp [parse_xmltv_datetime] at h
  simp only [parse_xmltv_datetime, if_neg hne, hstrip] at h
  by_cases hlen : s.length = 8 ∨ s.length = 10 ∨ s.length = 12 ∨ s.length = 14
  · simp only [match_all_digits hdig hlen] at h
    rcases hs : strptimeStamp s with _ | dt0
    · simp [hs] at h
    · simp only [hs] at h
      injection h with h
      obtain ⟨hdt0, _⟩ := strptimeStamp_some hs
      rw [← h, hdt0]
      exact formatStamp_stampFields s hdig hlen
  · have hmn : xmltvDatetimeMatch s = none := by
      simp only [xmltvDatetimeMatch]
      rw [takeWhile_all_eq hdig]
      exact if_neg hlen
    simp [hmn] at h

/-- C9 witness: the round-trip theorem applied to the concrete token
`20240115`. -/
theorem c9_witness :
    formatStamp ⟨2024, 1, 15, 0, 0, 0, none⟩ (("20240115".toList).length) =
      "20240115".toList :=
  roundtrip_format ("20240115".toList) ⟨2024, 1, 15, 0, 0, 0, none⟩ (by decide) (by decide)

/-- C4: for every well-formed document with root tag `tv` containing N
`programme` elements, `iter_parse` yields exactly N records, in the same
order as the `programme` elements' closing boundaries appear in the
document (`Element.programmesPost` is that closing-boundary order). -/
theorem iter_parse_yields_all (root : Element) (h : root.tag = tvTag) :
    iter_parse root = .ok ((root.programmesPost).map _parse_programme) ∧
    ((root.programmesPost).map _parse_programme).length = (root.programmesPost).length := by
  refine ⟨?_, List.length_map ..⟩
  cases root with
  | mk t a x cs =>
    simp only [Element.tag] at h
    subst h
    have hne : ¬(tvTag = programmeTag) := by decide
    simp [iter_parse, Element.events, iter_parse_events, Element.tag,
      iter_parse_events_rootSeen, List.filterMap_append, closes_eventsList,
      closesProgramme, Element.programmesPost, hne]

/-- C4 witness: the walker theorem applied to a concrete two-programme
document. -/
theorem c4_witness :
    iter_parse sampleDoc = .ok ((sampleDoc.programmesPost).map _parse_programme) ∧
    ((sampleDoc.programmesPost).map _parse_programme).length =
      (sampleDoc.programmesPost).length :=
  iter_parse_yields_all sampleDoc rfl

/-- C5: for every document whose root tag is not `tv`, the walker raises
the structural `ValueError` before any record is yielded: the error
carries an empty list of yielded records. -/
theorem iter_parse_root_mismatch (root : Element) (h : root.tag ≠ tvTag) :
    iter_parse root = .error [] rootErrorMsg := by
  cases root with
  | mk t a x cs =>
    simp only [Element.tag] at h
    simp [iter_parse, Element.events, iter_parse_events, Element.tag, h]

/-- C5 witness: the root-mismatch theorem applied to a document with root
tag `html`. -/
theorem c5_witness : iter_parse badRootDoc = .error [] rootErrorMsg :=
  iter_parse_root_mismatch badRootDoc (by decide)

/-- C6: for every program element and every named optional child field,
the extractor takes the trimmed text of the first child with that
field's tag (later occurrences are ignored), and a first occurrence
whose text is empty after trimming yields the field as absent. -/
theorem first_child_text (e c : Element) (fn : TextField) (pre post : List Element)
    (hch : e.children = pre ++ c :: post)
    (hpre : ∀ a ∈ pre, a.tag ≠ fn.tag)
    (htag : c.tag = fn.tag) :
    (_parse_programme e).textField fn = _text_or_none (some c) ∧
    (∀ t, c.text = some t → pyStrip t = [] →
      (_parse_programme e).textField fn = none) := by
  have hfind : e.find fn.tag = some c := by
    unfold Element.find
    rw [hch]
    exact find?_first _ pre c post (fun a ha => by simp [hpre a ha]) (by simp [htag])
  have hmain : (_parse_programme e).textField fn = _text_or_none (some c) := by
    cases fn <;>
      (simp only [TextField.tag] at hfind;
       simp only [XMLTVProgram.textField, _parse_programme, hfind])
  refine ⟨hmain, fun t ht h0 => ?_⟩
  rw [hmain]
  simp [_text_or_none, ht, h0]

/-- C6 witness: the extractor theorem applied to a concrete element with
two `category` children, the first of which has whitespace-only text. -/
theorem c6_witness :
    (_parse_programme sampleProgramme).textField TextField.category =
      _text_or_none (some (Element.mk ("category".toList) [] (some ("   ".toList)) [])) ∧
    (_parse_programme sampleProgramme).textField TextField.category = none := by
  have h := first_child_text sampleProgramme
    (Element.mk ("category".toList) [] (some ("   ".toList)) []) TextField.category
    [] [Element.mk ("category".toList) [] (some ("Drama".toList)) [],
        Element.mk ("new".toList) [] none []] rfl (by simp) rfl
  exact ⟨h.1, h.2 ("   ".toList) rfl (by decide)⟩

/-- C7: the record's `is_new` field is true exactly when a child element
with tag `new` is present, regardless of that child's attributes, text
or children; absence yields `false` (the field is a plain boolean, never
an unknown value). -/
theorem is_new_iff (e : Element) :
    (_parse_programme e).is_new = true ↔ ∃ c ∈ e.children, c.tag = ("new".toList) := by
  simp [_parse_programme, Element.find, List.find?_isSome]

/-- C8: the record's raw `start`/`stop` fields equal the element's
attribute values verbatim (or absent when absent), and the normalized
fields are computed independently from the same raw values; in
particular, when normalization fails the raw token is still carried
unchanged. -/
theorem raw_fields_verbatim (e : Element) :
    (_parse_programme e).start = e.get ("start".toList) ∧
    (_parse_programme e).stop = e.get ("stop".toList) ∧
    (_parse_programme e).start_dt = parse_xmltv_datetime (e.get ("start".toList)) ∧
    (_parse_programme e).stop_dt = parse_xmltv_datetime (e.get ("stop".toList)) ∧
    (∀ s, e.get ("start".toList) = some s → parse_xmltv_datetime (some s) = none →
      (_parse_programme e).start = some s ∧ (_parse_programme e).start_dt = none) ∧
    (∀ s, e.get ("stop".toList) = some s → parse_xmltv_datetime (some s) = none →
      (_parse_programme e).stop = some s ∧ (_parse_programme e).stop_dt = none) := by
  refine ⟨rfl, rfl, rfl, rfl, fun s hs hn => ⟨?_, ?_⟩, fun s hs hn => ⟨?_, ?_⟩⟩
  · show e.get ("start".toList) = some s
    exact hs
  · show parse_xmltv_datetime (e.get ("start".toList)) = none
    rw [hs]
    exact hn
  · show e.get ("stop".toList) = some s
    exact hs
  · show parse_xmltv_datetime (e.get ("stop".toList)) = none
    rw [hs]
    exact hn

/-- C8 witness: a concrete element whose `start` attribute does not
normalize still carries the raw token. -/
theorem c8_witness :
    (_parse_programme sampleProgramme).start = some ("oops".toList) ∧
    (_parse_programme sampleProgramme).start_dt = none :=
  (raw_fields_verbatim sampleProgramme).2.2.2.2.1 ("oops".toList) rfl (by decide)

theorem parse_all_space_eq_none (l : Str) (hl : l.all isSpace = true) :
    parse_xmltv_datetime (some l) = none := by
  by_cases h0 : l = []
  · rw [h0]
    rfl
  · simp only [parse_xmltv_datetime, if_neg h0, pyStrip_all_space hl]
    rfl

/-- C10: leading and trailing whitespace around the whole token is
ignored, while a timezone offset is accepted only when separated from
the digit run by whitespace — a signed 4-digit offset glued directly to
the digits always yields absent. -/
theorem whitespace_handling :
    (∀ (a s b : Str), a.all isSpace = true → b.all isSpace = true →
      parse_xmltv_datetime (some (a ++ s ++ b)) = parse_xmltv_datetime (some s)) ∧
    (∀ (d off : Str) (sign : Char), d.all isDigit = true →
      (sign = '+' ∨ sign = '-') → off.all isDigit = true → off.length = 4 →
      parse_xmltv_datetime (some (d ++ sign :: off)) = none) := by
  constructor
  · intro a s b ha hb
    have hstrip2 : pyStrip ((a ++ s) ++ b) = pyStrip s := by
      rw [pyStrip_append_right hb, pyStrip_append_left ha]
    by_cases hs0 : s = []
    · subst hs0
      rw [show parse_xmltv_datetime (some ([] : Str)) = none from rfl]
      exact parse_all_space_eq_none _ (by simp_all)
    · have hv : (a ++ s) ++ b ≠ [] := by
        intro h0
        rcases List.append_eq_nil.mp h0 with ⟨h1, _⟩
        rcases List.append_eq_nil.mp h1 with ⟨_, h2⟩
        exact hs0 h2
      simp only [parse_xmltv_datetime, if_neg hv, if_neg hs0, hstrip2]
  · intro d off sign hd hsign hoffdig hofflen
    have hsignsp : isSpace sign = false := by
      rcases hsign with rfl | rfl <;> decide
    have hsigndig : isDigit sign = false := by
      rcases hsign with rfl | rfl <;> decide
    have hnospace : ∀ c ∈ d ++ sign :: off, isSpace c = false := by
      intro c hc
      rcases List.mem_append.mp hc with hc | hc
      · exact digit_not_space (List.all_eq_true.mp hd c hc)
      · rcases List.mem_cons.mp hc with rfl | hc
        · exact hsignsp
        · exact digit_not_space (List.all_eq_true.mp hoffdig c hc)
    have hne : d ++ sign :: off ≠ [] := by simp
    have hstrip2 : pyStrip (d ++ sign :: off) = d ++ sign :: off :=
      pyStrip_no_space hnospace
    have htake : (d ++ sign :: off).takeWhile isDigit = d := by
      rw [takeWhile_append_all _ hd, List.takeWhile_cons_of_neg (by simp [hsigndig]),
        List.append_nil]
    have hdrop : (d ++ sign :: off).dropWhile isDigit = sign :: off := by
      rw [dropWhile_append_all _ hd, dropWhile_cons_neg _ hsigndig]
    have hmatch : xmltvDatetimeMatch (d ++ sign :: off) = none := by
      simp only [xmltvDatetimeMatch, htake, hdrop]
      by_cases hlen : d.length = 8 ∨ d.length = 10 ∨ d.length = 12 ∨ d.length = 14
      · rw [if_pos hlen]
        simp [hsignsp]
      · rw [if_neg hlen]
    simp only [parse_xmltv_datetime, if_neg hne, hstrip2, hmatch]

/-- C10 witness: surrounding whitespace is ignored for `  20240115  `,
and the glued-offset token `20240115+0500` yields absent. -/
theorem c10_witness :
    parse_xmltv_datetime (some ("  20240115  ".toList)) =
      parse_xmltv_datetime (some ("20240115".toList)) ∧
    parse_xmltv_datetime (some ("20240115+0500".toList)) = none :=
  ⟨whitespace_handling.1 ("  ".toList) ("20240115".toList) ("  ".toList)
      (by decide) (by decide),
   whitespace_handling.2 ("20240115".toList) ("0500".toList) '+'
      (by decide) (Or.inl rfl) (by decide) (by decide)⟩

end XMLTV
